import Mathlib

/-!
Verification of the image-harvesting pipeline of ImageLabeller-CLIP-KG.

The development shallowly embeds the Python sources:
  * `src/utils.py`            — `generate_image_name` (the Image Namer),
  * `src/process_website.py`  — `get_sublinks`, `WebsiteProcessor.extract_images`,
    `WebsiteProcessor.process_url`, `WebsiteProcessor.process_domain`,
    `process_websites` (the Domain Crawler and Crawl Orchestrator),
  * `src/image_downloader.py` — the enqueue loop of `download_batch_images`
    and the extension inference of `download_single_image`.

External libraries (aiohttp, BeautifulSoup, urllib) are abstracted: an HTTP
`World` maps URLs to fetch outcomes, and HTML pages are represented by the
data the extractor reads off the parsed soup.  Python `set`s are modelled as
duplicate-free lists in insertion order; `dict`s as association lists.
-/

/- ====================  Image Namer (src/utils.py)  ==================== -/

/-- Embedding of the inner `index_to_letters` of `generate_image_name`
(`src/utils.py` lines 45–51).  The source runs a 3-iteration loop that
prepends `chr(65 + idx % 26)` and then divides `idx` by 26; unrolled, the
k-th letter from the right is `chr(65 + (idx // 26^k) % 26)`. -/
def index_to_letters (idx : Nat) : String :=
  String.mk [Char.ofNat (65 + idx / 26 / 26 % 26),
             Char.ofNat (65 + idx / 26 % 26),
             Char.ofNat (65 + idx % 26)]

/-- Embedding of the Python format spec `{number:02d}`: decimal digits,
zero-padded on the left to width 2. -/
def pad2 (n : Nat) : String :=
  if n < 10 then "0" ++ Nat.repr n else Nat.repr n

/-- Embedding of `generate_image_name` (`src/utils.py` lines 42–57):
`f"SDK{index_to_letters(manufacturer_index)}0{section}{number:02d}"` with
`section = chr(65 + (image_count - 1) // 99)` and
`number = (image_count - 1) % 99 + 1`.  All call sites in the source pass
`image_count ≥ 1`, where Python's signed `//`, `%` agree with `Nat`'s. -/
def generate_image_name (manufacturer_index : Nat) (image_count : Nat) : String :=
  "SDK" ++ index_to_letters manufacturer_index ++ "0"
    ++ String.mk [Char.ofNat (65 + (image_count - 1) / 99)]
    ++ pad2 ((image_count - 1) % 99 + 1)

/-- C1: the image name generator on (ordinal 0, count 1), (0, 99), (0, 100)
and (1, 1) produces the exact strings the spec lists, witnessing the
section/number derivation `(n-1) div 99` / `(n-1) mod 99 + 1` and the
most-significant-first base-26 manufacturer code. -/
theorem image_name_concrete :
    generate_image_name 0 1 = "SDKAAA0A01" ∧
    generate_image_name 0 99 = "SDKAAA0A99" ∧
    generate_image_name 0 100 = "SDKAAA0B01" ∧
    generate_image_name 1 1 = "SDKAAB0A01" := by
  refine ⟨?_, ?_, ?_, ?_⟩ <;> decide

lemma char_toNat_ofNat_of_lt (n : Nat) (h : n < 55296) : (Char.ofNat n).toNat = n := by
  have hv : n.isValidChar := Or.inl h
  simp only [Char.ofNat, hv, dite_true, Char.ofNatAux, Char.toNat]
  rfl

lemma char_ofNat_inj {a b : Nat} (ha : a < 55296) (hb : b < 55296)
    (h : Char.ofNat a = Char.ofNat b) : a = b := by
  have h2 := congrArg Char.toNat h
  rwa [char_toNat_ofNat_of_lt a ha, char_toNat_ofNat_of_lt b hb] at h2

lemma pad2_data (n : Nat) (h : n < 100) :
    (pad2 n).data = [Char.ofNat (48 + n / 10), Char.ofNat (48 + n % 10)] := by
  revert h
  revert n
  decide

lemma generate_image_name_data (idx cnt : Nat) :
    (generate_image_name idx cnt).data =
      ['S', 'D', 'K',
       Char.ofNat (65 + idx / 26 / 26 % 26),
       Char.ofNat (65 + idx / 26 % 26),
       Char.ofNat (65 + idx % 26),
       '0',
       Char.ofNat (65 + (cnt - 1) / 99),
       Char.ofNat (48 + ((cnt - 1) % 99 + 1) / 10),
       Char.ofNat (48 + ((cnt - 1) % 99 + 1) % 10)] := by
  have hlt : (cnt - 1) % 99 + 1 < 100 := by
    have := Nat.mod_lt (cnt - 1) (show 0 < 99 by norm_num)
    omega
  simp [generate_image_name, index_to_letters, String.data_append, pad2_data _ hlt]

/-- C7: on the valid range (ordinal < 26³ = 17576, sequence 1..2574 = 26·99)
the name generator is injective — equal name strings force equal ordinal and
sequence number.  Determinism is immediate since it is a pure function. -/
theorem generate_image_name_injective (i1 s1 i2 s2 : Nat)
    (hi1 : i1 < 17576) (hi2 : i2 < 17576)
    (hs1l : 1 ≤ s1) (hs1u : s1 ≤ 2574) (hs2l : 1 ≤ s2) (hs2u : s2 ≤ 2574)
    (h : generate_image_name i1 s1 = generate_image_name i2 s2) :
    i1 = i2 ∧ s1 = s2 := by
  have hd := congrArg String.data h
  rw [generate_image_name_data i1 s1, generate_image_name_data i2 s2] at hd
  simp only [List.cons.injEq, and_true, true_and] at hd
  obtain ⟨e1, e2, e3, eS, eD1, eD2⟩ := hd
  have b1 : i1 / 26 / 26 % 26 < 26 := Nat.mod_lt _ (by norm_num)
  have b1' : i2 / 26 / 26 % 26 < 26 := Nat.mod_lt _ (by norm_num)
  have b2 : i1 / 26 % 26 < 26 := Nat.mod_lt _ (by norm_num)
  have b2' : i2 / 26 % 26 < 26 := Nat.mod_lt _ (by norm_num)
  have b3 : i1 % 26 < 26 := Nat.mod_lt _ (by norm_num)
  have b3' : i2 % 26 < 26 := Nat.mod_lt _ (by norm_num)
  have bS : (s1 - 1) / 99 < 26 := by omega
  have bS' : (s2 - 1) / 99 < 26 := by omega
  have bD1 : ((s1 - 1) % 99 + 1) / 10 < 10 := by omega
  have bD1' : ((s2 - 1) % 99 + 1) / 10 < 10 := by omega
  have n1 := char_ofNat_inj (by omega) (by omega) e1
  have n2 := char_ofNat_inj (by omega) (by omega) e2
  have n3 := char_ofNat_inj (by omega) (by omega) e3
  have nS := char_ofNat_inj (by omega) (by omega) eS
  have nD1 := char_ofNat_inj (by omega) (by omega) eD1
  have nD2 := char_ofNat_inj (by omega) (by omega) eD2
  constructor
  · omega
  · omega

/-- Witness for C7: the injectivity theorem applied at the concrete input
(ordinal 1, sequence 5) on both sides. -/
theorem generate_image_name_injective_witness : (1 : Nat) = 1 ∧ (5 : Nat) = 5 :=
  generate_image_name_injective 1 5 1 5 (by decide) (by decide) (by decide)
    (by decide) (by decide) (by decide) rfl

/-- C10: the generator is total on `Nat` ordinals and only depends on the
manufacturer ordinal modulo 26³ = 17576, so ordinals 17576 apart collide. -/
theorem generate_image_name_mod_17576 (i s : Nat) :
    generate_image_name i s = generate_image_name (i % 17576) s := by
  have h1 : i % 17576 % 26 = i % 26 := Nat.mod_mod_of_dvd i (by norm_num)
  have h2 : i % 17576 / 26 % 26 = i / 26 % 26 := by
    have he : (17576 : Nat) = 26 * 676 := by norm_num
    rw [he, Nat.mod_mul_right_div_self, Nat.mod_mod_of_dvd _ (by norm_num)]
  have h3 : i % 17576 / 26 / 26 % 26 = i / 26 / 26 % 26 := by
    rw [Nat.div_div_eq_div_mul, Nat.div_div_eq_div_mul]
    have he : (17576 : Nat) = 676 * 26 := by norm_num
    rw [he, Nat.mod_mul_right_div_self, Nat.mod_mod_of_dvd _ dvd_rfl]
  simp only [generate_image_name, index_to_letters]
  rw [h1, h2, h3]

/- ============  URL helpers (str methods, urllib.parse.urljoin)  ============ -/

/-- Embedding of Python `str.startswith`: a character-level prefix test. -/
def py_startswith (s p : String) : Bool := p.data.isPrefixOf s.data

/-- A single or double quote character (the set passed to `strip("'\x22")`). -/
def is_quote (c : Char) : Bool := c == '\'' || c == '"'

/-- Embedding of Python `bg_url.strip("'\x22")`: remove leading and trailing
quote characters. -/
def strip_quotes (s : String) : String :=
  String.mk (((s.data.dropWhile is_quote).reverse.dropWhile is_quote).reverse)

/-- Part of the `urljoin` model: a reference carries a scheme when the first
colon or slash in it is a colon (`http:`, `https:`, `data:` …). -/
def has_scheme (s : String) : Bool :=
  match s.data.find? (fun c => c == ':' || c == '/') with
  | some c => c == ':'
  | none => false

/-- Part of the `urljoin` model: the `scheme://host` origin of an absolute
URL. -/
def url_origin (s : String) : String :=
  match s.splitOn "://" with
  | sch :: rest :: _ => sch ++ "://" ++ String.mk (rest.data.takeWhile fun c => c != '/')
  | _ => s

/-- Part of the `urljoin` model: the base URL up to and including its last
slash — the directory a relative reference is resolved in. -/
def url_dir (s : String) : String :=
  String.mk ((s.data.reverse.dropWhile fun c => c != '/').reverse)

/-- Modelled from `urllib.parse.urljoin` on the cases the embedded code
exercises: a reference with a scheme is returned unchanged, a root-relative
reference (`/…`) is resolved against the base's origin, any other non-empty
reference replaces the last segment of the base's path, and an empty
reference yields the base.  (Dot-segment and protocol-relative handling is
not exercised by the source.) -/
def urljoin (base href : String) : String :=
  if href = "" then base
  else if has_scheme href then href
  else if py_startswith href "/" then url_origin base ++ href
  else url_dir base ++ href

/- ==========  Content extractor (WebsiteProcessor.extract_images)  ========== -/

/-- Source classification of a discovered image (the `source` field of the
image dict). -/
inductive ImageSource where
  | img_tag
  | style_tag
  | inline_style
  deriving DecidableEq

/-- An `<img>` element as the extractor reads it: its `data-srclazy`, `src`
and `alt` attributes (`none` when the attribute is absent). -/
structure ImgTag where
  data_srclazy : Option String := none
  src : Option String := none
  alt : Option String := none
  deriving DecidableEq

/-- One harvested image reference — the dict appended to `images` in
`WebsiteProcessor.extract_images`. -/
structure ImageRec where
  url : String
  alt_text : String
  source : ImageSource
  source_page : String
  page_context : String
  deriving DecidableEq

/-- A fetched page, as the code reads it off the parsed soup: the `<img>`
elements; the `background-image: url(...)` regex matches found inside
`<style>` blocks and inside inline `style` attributes mentioning
`background-image`; the anchor `href`s; the anchor `href`s under elements
whose class contains "menu" (what `extract_menu_items` returns); and the two
text renderings `soup.get_text()` and `soup.get_text(separator=' ',
strip=True)`. -/
structure Page where
  imgTags : List ImgTag := []
  styleBgUrls : List String := []
  inlineBgUrls : List String := []
  anchors : List String := []
  menuAnchors : List String := []
  text : String := ""
  textFlat : String := ""

/-- Embedding of Python `a or b` on optional attribute strings: `None` and
`""` are falsy. -/
def py_or_str (a b : Option String) : Option String :=
  match a with
  | some s => if s = "" then b else some s
  | none => b

/-- The candidate record for one `<img>` element: URL from
`img.get('data-srclazy') or img.get('src')`, skipped when falsy, resolved
with `urljoin`; alt text defaults to `'N/A'`. -/
def img_tag_rec (pageUrl pageText : String) (t : ImgTag) : Option ImageRec :=
  match py_or_str t.data_srclazy t.src with
  | none => none
  | some u =>
    if u = "" then none
    else some ⟨urljoin pageUrl u, t.alt.getD "N/A", .img_tag, pageUrl, pageText⟩

/-- The candidate record for one `background-image` URL found in a style
block or inline style: quotes stripped, resolved with `urljoin`, `data:`
URIs excluded. -/
def style_bg_rec (src : ImageSource) (pageUrl pageText : String) (raw : String) :
    Option ImageRec :=
  if py_startswith (urljoin pageUrl (strip_quotes raw)) "data:" then none
  else some ⟨urljoin pageUrl (strip_quotes raw), "N/A", src, pageUrl, pageText⟩

/-- One guarded append in `extract_images`: a candidate is kept only when
its URL is not yet in the crawl-wide `downloaded_images` set, which it then
joins (the Python `set` is modelled as a duplicate-free list). -/
def emit_step (acc : List ImageRec × List String) (r : Option ImageRec) :
    List ImageRec × List String :=
  match r with
  | none => acc
  | some img =>
    if img.url ∈ acc.2 then acc
    else (acc.1 ++ [img], acc.2 ++ [img.url])

/-- Embedding of `WebsiteProcessor.extract_images` (`process_website.py`
lines 84–139): three passes — `<img>` tags, `<style>` blocks, inline
styles — each guarded by the shared `downloaded_images` set `dl`.  Returns
the emitted records and the updated set. -/
def extract_images (dl : List String) (url : String) (p : Page) :
    List ImageRec × List String :=
  let acc1 := p.imgTags.foldl (fun acc t => emit_step acc (img_tag_rec url p.text t)) ([], dl)
  let acc2 := p.styleBgUrls.foldl
    (fun acc u => emit_step acc (style_bg_rec .style_tag url p.text u)) acc1
  p.inlineBgUrls.foldl
    (fun acc u => emit_step acc (style_bg_rec .inline_style url p.text u)) acc2

/-- The dedup invariant threaded through `extract_images`: emitted URLs are
pairwise distinct and all already recorded in the seen-set. -/
def ExtractInv (acc : List ImageRec × List String) : Prop :=
  ((acc.1.map ImageRec.url).Nodup) ∧ ∀ r ∈ acc.1, r.url ∈ acc.2

lemma emit_step_spec (acc : List ImageRec × List String) (r : Option ImageRec)
    (h : ExtractInv acc) :
    ExtractInv (emit_step acc r) ∧ (∀ u ∈ acc.2, u ∈ (emit_step acc r).2) ∧
      (∀ q ∈ (emit_step acc r).1, q ∈ acc.1 ∨ q.url ∉ acc.2) := by
  match r with
  | none => exact ⟨h, fun u hu => hu, fun q hq => Or.inl hq⟩
  | some img =>
    simp only [emit_step]
    by_cases hm : img.url ∈ acc.2
    · simp only [if_pos hm]
      exact ⟨h, fun u hu => hu, fun q hq => Or.inl hq⟩
    · simp only [if_neg hm]
      refine ⟨⟨?_, ?_⟩, ?_, ?_⟩
      · rw [List.map_append]
        refine List.Nodup.append h.1 (by simp) ?_
        intro u hu1 hu2
        simp only [List.map_cons, List.map_nil, List.mem_singleton] at hu2
        subst hu2
        obtain ⟨q, hq, hqu⟩ := List.mem_map.1 hu1
        exact hm (hqu ▸ h.2 q hq)
      · intro q hq
        rcases List.mem_append.1 hq with h1 | h1
        · exact List.mem_append_left _ (h.2 q h1)
        · simp only [List.mem_singleton] at h1
          subst h1
          simp
      · intro u hu
        exact List.mem_append_left _ hu
      · intro q hq
        rcases List.mem_append.1 hq with h1 | h1
        · exact Or.inl h1
        · simp only [List.mem_singleton] at h1
          subst h1
          exact Or.inr hm

lemma foldl_emit_spec {α : Type} (f : α → Option ImageRec) (l : List α)
    (acc : List ImageRec × List String) (h : ExtractInv acc) :
    ExtractInv (l.foldl (fun a x => emit_step a (f x)) acc) ∧
      (∀ u ∈ acc.2, u ∈ (l.foldl (fun a x => emit_step a (f x)) acc).2) ∧
      (∀ q ∈ (l.foldl (fun a x => emit_step a (f x)) acc).1,
        q ∈ acc.1 ∨ q.url ∉ acc.2) := by
  induction l generalizing acc with
  | nil => exact ⟨h, fun u hu => hu, fun q hq => Or.inl hq⟩
  | cons x xs ih =>
    simp only [List.foldl_cons]
    have hs := emit_step_spec acc (f x) h
    have hrec := ih (emit_step acc (f x)) hs.1
    refine ⟨hrec.1, ?_, ?_⟩
    · intro u hu
      exact hrec.2.1 u (hs.2.1 u hu)
    · intro q hq
      rcases hrec.2.2 q hq with h1 | h1
      · rcases hs.2.2 q h1 with h2 | h2
        · exact Or.inl h2
        · exact Or.inr h2
      · exact Or.inr fun hmem => h1 (hs.2.1 _ hmem)

lemma extract_images_spec (dl : List String) (url : String) (p : Page) :
    ExtractInv (extract_images dl url p) ∧
      (∀ u ∈ dl, u ∈ (extract_images dl url p).2) ∧
      (∀ q ∈ (extract_images dl url p).1, q.url ∉ dl) := by
  have h0 : ExtractInv (([] : List ImageRec), dl) := ⟨List.nodup_nil, by simp⟩
  have s1 := foldl_emit_spec (img_tag_rec url p.text) p.imgTags ([], dl) h0
  have s2 := foldl_emit_spec (style_bg_rec .style_tag url p.text) p.styleBgUrls _ s1.1
  have s3 := foldl_emit_spec (style_bg_rec .inline_style url p.text) p.inlineBgUrls _ s2.1
  simp only [extract_images]
  refine ⟨s3.1, ?_, ?_⟩
  · intro u hu
    exact s3.2.1 u (s2.2.1 u (s1.2.1 u hu))
  · intro q hq
    rcases s3.2.2 q hq with h1 | h1
    · rcases s2.2.2 q h1 with h2 | h2
      · rcases s1.2.2 q h2 with h3 | h3
        · simp at h3
        · exact h3
      · exact fun hd => h2 (s1.2.1 _ hd)
    · exact fun hd => h1 (s2.2.1 _ (s1.2.1 _ hd))

/-- One step of a crawl-wide extraction sequence: run `extract_images` on
the next page with the current seen-set and extend the accumulated image
list, as `process_url` does via `processed_data['images'].extend(images)`. -/
def run_extract_step (acc : List ImageRec × List String) (c : String × Page) :
    List ImageRec × List String :=
  ((acc.1 ++ (extract_images acc.2 c.1 c.2).1), (extract_images acc.2 c.1 c.2).2)

/-- A whole crawl's sequence of extraction calls over its pages, threading
the crawl-wide `downloaded_images` set. -/
def run_extract (calls : List (String × Page)) (dl0 : List String) :
    List ImageRec × List String :=
  calls.foldl run_extract_step ([], dl0)

lemma run_extract_aux (calls : List (String × Page))
    (acc : List ImageRec × List String) (h : ExtractInv acc) :
    ExtractInv (calls.foldl run_extract_step acc) := by
  induction calls generalizing acc with
  | nil => exact h
  | cons c cs ih =>
    simp only [List.foldl_cons]
    apply ih
    have hs := extract_images_spec acc.2 c.1 c.2
    constructor
    · simp only [run_extract_step, List.map_append]
      refine List.Nodup.append h.1 hs.1.1 ?_
      intro u hu1 hu2
      obtain ⟨q1, hq1, hq1u⟩ := List.mem_map.1 hu1
      obtain ⟨q2, hq2, hq2u⟩ := List.mem_map.1 hu2
      exact hs.2.2 q2 hq2 (hq2u ▸ hq1u ▸ h.2 q1 hq1)
    · intro r hr
      rcases List.mem_append.1 hr with h1 | h1
      · exact hs.2.1 _ (h.2 r h1)
      · exact hs.1.2 r h1

/-- C4: over any sequence of extraction calls within one crawl — any pages,
any discovery route (img tag, style block, inline style), any relative
spellings of the URLs, and any initial seen-set — the accumulated image
list never contains the same absolute image URL twice. -/
theorem extract_images_no_duplicate_urls (calls : List (String × Page))
    (dl0 : List String) :
    (((run_extract calls dl0).1).map ImageRec.url).Nodup :=
  (run_extract_aux calls ([], dl0) ⟨List.nodup_nil, by simp⟩).1

/- ==============  Same-site link extractor (get_sublinks)  ============== -/

/-- Embedding of `get_sublinks` (`process_website.py` lines 30–38): each
anchor `href` is resolved against `url` with `urljoin` and kept when the
resolved URL starts with `url` — the URL the extractor is called with; the
Python `set` is modelled as a duplicate-free list in first-insertion
order. -/
def get_sublinks (url : String) (anchors : List String) : List String :=
  anchors.foldl
    (fun acc href =>
      if py_startswith (urljoin url href) url = true then
        if urljoin url href ∈ acc then acc else acc ++ [urljoin url href]
      else acc)
    []

lemma get_sublinks_mem_aux (url : String) (anchors : List String) (acc : List String)
    (f : String) :
    (f ∈ anchors.foldl
      (fun acc href =>
        if py_startswith (urljoin url href) url = true then
          if urljoin url href ∈ acc then acc else acc ++ [urljoin url href]
        else acc)
      acc) ↔
      (f ∈ acc ∨ (py_startswith f url = true ∧ ∃ href ∈ anchors, urljoin url href = f)) := by
  induction anchors generalizing acc with
  | nil => simp
  | cons a l ih =>
    simp only [List.foldl_cons]
    by_cases hps : py_startswith (urljoin url a) url = true
    · rw [if_pos hps]
      by_cases hmem : urljoin url a ∈ acc
      · rw [if_pos hmem, ih]
        constructor
        · rintro (h | ⟨h1, href, h2, h3⟩)
          · exact Or.inl h
          · exact Or.inr ⟨h1, href, List.mem_cons_of_mem a h2, h3⟩
        · rintro (h | ⟨h1, href, h2, h3⟩)
          · exact Or.inl h
          · rcases List.mem_cons.1 h2 with rfl | h2'
            · subst h3
              exact Or.inl hmem
            · exact Or.inr ⟨h1, href, h2', h3⟩
      · rw [if_neg hmem, ih]
        constructor
        · rintro (h | ⟨h1, href, h2, h3⟩)
          · rcases List.mem_append.1 h with h' | h'
            · exact Or.inl h'
            · simp only [List.mem_singleton] at h'
              subst h'
              exact Or.inr ⟨hps, a, List.mem_cons_self a l, rfl⟩
          · exact Or.inr ⟨h1, href, List.mem_cons_of_mem a h2, h3⟩
        · rintro (h | ⟨h1, href, h2, h3⟩)
          · exact Or.inl (List.mem_append_left _ h)
          · rcases List.mem_cons.1 h2 with rfl | h2'
            · subst h3
              exact Or.inl (List.mem_append_right _ (List.mem_singleton_self _))
            · exact Or.inr ⟨h1, href, h2', h3⟩
    · rw [if_neg hps, ih]
      constructor
      · rintro (h | ⟨h1, href, h2, h3⟩)
        · exact Or.inl h
        · exact Or.inr ⟨h1, href, List.mem_cons_of_mem a h2, h3⟩
      · rintro (h | ⟨h1, href, h2, h3⟩)
        · exact Or.inl h
        · rcases List.mem_cons.1 h2 with rfl | h2'
          · subst h3
            exact absurd h1 hps
          · exact Or.inr ⟨h1, href, h2', h3⟩

/-- C6 (amended): the link extractor returns exactly those anchors whose
resolved absolute URL starts (string-prefix test) with the URL it is called
with — and `process_url` calls it with the *current page's* URL, so away
from the seed page the prefix is the current page's URL, not the seed. -/
theorem get_sublinks_current_page_prefix (url : String) (anchors : List String)
    (f : String) :
    f ∈ get_sublinks url anchors ↔
      (py_startswith f url = true ∧ ∃ href ∈ anchors, urljoin url href = f) := by
  rw [get_sublinks, get_sublinks_mem_aux]
  simp

/- ======  Batch downloader enqueue loop (download_batch_images)  ====== -/

/-- The per-domain result dict built by `process_domain` and consumed by
`download_batch_images`. -/
structure ProcessedData where
  manufacturer : String
  manufacturer_index : Nat
  website_url : String
  images : List ImageRec
  page_contexts : List (String × String)
  deriving DecidableEq

/-- One download job as enqueued by `download_batch_images`: the `img_data`
dict plus the counter value (`image_counter[manufacturer]`) the task is
created with.  The sequence number is assigned at enqueue time, before any
download runs, hence independent of download success or failure. -/
structure DownloadJob where
  url : String
  manufacturer : String
  manufacturer_index : Nat
  alt_text : String
  source : ImageSource
  source_page : String
  page_context : String
  seq : Nat
  deriving DecidableEq

/-- The job built for one harvested image. -/
def mk_job (pd : ProcessedData) (img : ImageRec) (n : Nat) : DownloadJob :=
  ⟨img.url, pd.manufacturer, pd.manufacturer_index, img.alt_text, img.source,
   img.source_page, img.page_context, n⟩

/-- Embedding of the inner image loop of `download_batch_images`
(`image_downloader.py` lines 65–90) for one site: while the manufacturer's
counter is at most 26·99 = 2574 a job is created and the counter advances;
once it exceeds that, `continue` skips both the job and the increment. -/
def enqueue_site (pd : ProcessedData) : List ImageRec → Nat → List DownloadJob × Nat
  | [], n => ([], n)
  | img :: rest, n =>
    if 26 * 99 < n then enqueue_site pd rest n
    else
      ((mk_job pd img n) :: (enqueue_site pd rest (n + 1)).1,
       (enqueue_site pd rest (n + 1)).2)

/-- Assignment into the `image_counter` dict. -/
def upd_counter (m : String) (v : Nat) : List (String × Nat) → List (String × Nat)
  | [] => [(m, v)]
  | (k, w) :: t => if k = m then (k, v) :: t else (k, w) :: upd_counter m v t

/-- The counter value the loop reads for manufacturer `m` (1 right after
initialisation). -/
def ctr (cs : List (String × Nat)) (m : String) : Nat := (cs.lookup m).getD 1

/-- One site's step of `download_batch_images`: initialise the
manufacturer's counter to 1 when absent, enqueue the site's images, store
back the advanced counter. -/
def enqueue_sites_step (acc : List DownloadJob × List (String × Nat))
    (pd : ProcessedData) : List DownloadJob × List (String × Nat) :=
  let cs := if (acc.2.lookup pd.manufacturer).isNone
    then upd_counter pd.manufacturer 1 acc.2 else acc.2
  ((acc.1 ++ (enqueue_site pd pd.images (ctr cs pd.manufacturer)).1),
   upd_counter pd.manufacturer (enqueue_site pd pd.images (ctr cs pd.manufacturer)).2 cs)

/-- Embedding of the enqueue phase of `download_batch_images`
(`image_downloader.py` lines 51–93): jobs created per site in order, with
per-manufacturer counters in the `image_counter` dict. -/
def enqueue_jobs (ws : List ProcessedData) : List DownloadJob :=
  (ws.foldl enqueue_sites_step ([], [])).1

/-- The jobs enqueued for one manufacturer. -/
def jobs_for (jobs : List DownloadJob) (m : String) : List DownloadJob :=
  jobs.filter (fun j => j.manufacturer == m)

lemma lookup_upd_counter (m m' : String) (v : Nat) (cs : List (String × Nat)) :
    (upd_counter m v cs).lookup m' = if m' = m then some v else cs.lookup m' := by
  induction cs with
  | nil =>
    by_cases h : m' = m
    · simp [upd_counter, List.lookup, h]
    · simp [upd_counter, List.lookup, h, beq_eq_false_iff_ne.mpr h]
  | cons kv t ih =>
    obtain ⟨k, w⟩ := kv
    by_cases hk : k = m
    · subst hk
      by_cases h : m' = k
      · subst h
        simp [upd_counter, List.lookup]
      · simp [upd_counter, List.lookup, h, beq_eq_false_iff_ne.mpr h]
    · by_cases h : m' = k
      · subst h
        simp [upd_counter, hk, List.lookup]
      · simp [upd_counter, hk, List.lookup, beq_eq_false_iff_ne.mpr h, ih]

lemma ctr_upd_self (m : String) (v : Nat) (cs : List (String × Nat)) :
    ctr (upd_counter m v cs) m = v := by
  unfold ctr
  rw [lookup_upd_counter, if_pos rfl]
  rfl

lemma ctr_upd_other (m m' : String) (hm : m' ≠ m) (v : Nat)
    (cs : List (String × Nat)) :
    ctr (upd_counter m v cs) m' = ctr cs m' := by
  unfold ctr
  rw [lookup_upd_counter, if_neg hm]

lemma ctr_init_eq (cs0 : List (String × Nat)) (m0 m' : String) :
    ctr (if (cs0.lookup m0).isNone then upd_counter m0 1 cs0 else cs0) m'
      = ctr cs0 m' := by
  by_cases hn : (cs0.lookup m0).isNone
  · rw [if_pos hn]
    by_cases hm : m' = m0
    · subst hm
      rw [ctr_upd_self]
      rw [Option.isNone_iff_eq_none] at hn
      unfold ctr
      rw [hn]
      rfl
    · exact ctr_upd_other m0 m' hm 1 cs0
  · rw [if_neg hn]

lemma mk_job_seq (pd : ProcessedData) (img : ImageRec) (n : Nat) :
    (mk_job pd img n).seq = n := rfl

lemma mk_job_man (pd : ProcessedData) (img : ImageRec) (n : Nat) :
    (mk_job pd img n).manufacturer = pd.manufacturer := rfl

lemma enqueue_site_spec (pd : ProcessedData) (l : List ImageRec) (n : Nat)
    (h1 : 1 ≤ n) (h : n ≤ 2575) :
    (enqueue_site pd l n).2 = min (n + l.length) 2575 ∧
    ((enqueue_site pd l n).1.map DownloadJob.seq) =
      List.range' n (min (n + l.length) 2575 - n) ∧
    ∀ j ∈ (enqueue_site pd l n).1,
      j.manufacturer = pd.manufacturer ∧ n ≤ j.seq ∧ j.seq ≤ 2574 := by
  induction l generalizing n with
  | nil =>
    refine ⟨?_, ?_, ?_⟩
    · simp only [enqueue_site, List.length_nil]
      omega
    · simp only [enqueue_site, List.map_nil, List.length_nil]
      rw [show min (n + 0) 2575 - n = 0 by omega]
      rfl
    · intro j hj
      simp only [enqueue_site, List.not_mem_nil] at hj
  | cons img rest ih =>
    by_cases hgt : 26 * 99 < n
    · have hrec := ih n h1 h
      have h2 : enqueue_site pd (img :: rest) n = enqueue_site pd rest n := by
        simp only [enqueue_site, if_pos hgt]
      refine ⟨?_, ?_, ?_⟩
      · rw [h2, hrec.1]
        simp only [List.length_cons]
        omega
      · rw [h2, hrec.2.1]
        have hcnt : min (n + (img :: rest).length) 2575 - n
            = min (n + rest.length) 2575 - n := by
          simp only [List.length_cons]
          omega
        rw [hcnt]
      · rw [h2]
        exact hrec.2.2
    · have hle : n + 1 ≤ 2575 := by omega
      have hrec := ih (n + 1) (by omega) hle
      have h2a : (enqueue_site pd (img :: rest) n).1
          = (mk_job pd img n) :: (enqueue_site pd rest (n + 1)).1 := by
        simp only [enqueue_site, if_neg hgt]
      have h2b : (enqueue_site pd (img :: rest) n).2
          = (enqueue_site pd rest (n + 1)).2 := by
        simp only [enqueue_site, if_neg hgt]
      refine ⟨?_, ?_, ?_⟩
      · rw [h2b, hrec.1]
        simp only [List.length_cons]
        omega
      · rw [h2a]
        simp only [List.map_cons, mk_job_seq, hrec.2.1]
        rw [show min (n + (img :: rest).length) 2575 - n =
            (min (n + 1 + rest.length) 2575 - (n + 1)) + 1 by
          simp only [List.length_cons]
          omega]
        rw [List.range'_succ]
      · rw [h2a]
        intro j hj
        rcases List.mem_cons.1 hj with rfl | hj'
        · refine ⟨mk_job_man pd img n, ?_, ?_⟩
          · rw [mk_job_seq]
          · rw [mk_job_seq]
            omega
        · have h3 := hrec.2.2 j hj'
          exact ⟨h3.1, by omega, h3.2.2⟩

/-- The counter/jobs invariant of the enqueue fold: each manufacturer's
counter sits in 1..2575 and the sequence numbers of its jobs so far are
exactly 1, 2, …, counter−1. -/
def CounterInv (acc : List DownloadJob × List (String × Nat)) : Prop :=
  ∀ m, 1 ≤ ctr acc.2 m ∧ ctr acc.2 m ≤ 2575 ∧
    ((jobs_for acc.1 m).map DownloadJob.seq) = List.range' 1 (ctr acc.2 m - 1)

lemma counter_init_inv (jobs : List DownloadJob) (cs : List (String × Nat))
    (m0 : String) (h : CounterInv (jobs, cs)) :
    CounterInv (jobs, if (cs.lookup m0).isNone then upd_counter m0 1 cs else cs) := by
  intro m
  have hc := ctr_init_eq cs m0 m
  exact ⟨by rw [hc]; exact (h m).1, by rw [hc]; exact (h m).2.1,
    by rw [hc]; exact (h m).2.2⟩

lemma enqueue_step_core (jobs : List DownloadJob) (cs : List (String × Nat))
    (pd : ProcessedData) (h : CounterInv (jobs, cs)) :
    CounterInv (jobs ++ (enqueue_site pd pd.images (ctr cs pd.manufacturer)).1,
      upd_counter pd.manufacturer
        (enqueue_site pd pd.images (ctr cs pd.manufacturer)).2 cs) := by
  have hn0 : 1 ≤ ctr cs pd.manufacturer := (h pd.manufacturer).1
  have hn1 : ctr cs pd.manufacturer ≤ 2575 := (h pd.manufacturer).2.1
  have hsite := enqueue_site_spec pd pd.images (ctr cs pd.manufacturer) hn0 hn1
  intro m
  by_cases hm : m = pd.manufacturer
  · subst hm
    have hctr2 : ctr (upd_counter pd.manufacturer
          (enqueue_site pd pd.images (ctr cs pd.manufacturer)).2 cs) pd.manufacturer
        = min (ctr cs pd.manufacturer + pd.images.length) 2575 := by
      rw [ctr_upd_self, hsite.1]
    have hall : (enqueue_site pd pd.images (ctr cs pd.manufacturer)).1.filter
        (fun j => j.manufacturer == pd.manufacturer)
        = (enqueue_site pd pd.images (ctr cs pd.manufacturer)).1 := by
      rw [List.filter_eq_self]
      intro j hj
      simp [(hsite.2.2 j hj).1]
    refine ⟨?_, ?_, ?_⟩
    · rw [hctr2]
      omega
    · rw [hctr2]
      omega
    · rw [hctr2]
      simp only [jobs_for, List.filter_append, hall, List.map_append]
      have hold := (h pd.manufacturer).2.2
      simp only [jobs_for] at hold
      rw [hold, hsite.2.1]
      have hr := List.range'_append 1 (ctr cs pd.manufacturer - 1)
        (min (ctr cs pd.manufacturer + pd.images.length) 2575 - ctr cs pd.manufacturer) 1
      rw [show 1 + 1 * (ctr cs pd.manufacturer - 1) = ctr cs pd.manufacturer by omega] at hr
      rw [hr]
      rw [show (min (ctr cs pd.manufacturer + pd.images.length) 2575
            - ctr cs pd.manufacturer) + (ctr cs pd.manufacturer - 1)
          = min (ctr cs pd.manufacturer + pd.images.length) 2575 - 1 by omega]
  · have hctr2 : ctr (upd_counter pd.manufacturer
        (enqueue_site pd pd.images (ctr cs pd.manufacturer)).2 cs) m = ctr cs m :=
      ctr_upd_other pd.manufacturer m hm _ cs
    have hnone : (enqueue_site pd pd.images (ctr cs pd.manufacturer)).1.filter
        (fun j => j.manufacturer == m) = [] := by
      rw [List.filter_eq_nil_iff]
      intro j hj
      have h2 := (hsite.2.2 j hj).1
      simp only [h2, beq_iff_eq]
      exact fun hc => hm hc.symm
    refine ⟨?_, ?_, ?_⟩
    · rw [hctr2]
      exact (h m).1
    · rw [hctr2]
      exact (h m).2.1
    · rw [hctr2]
      simp only [jobs_for, List.filter_append, hnone, List.append_nil]
      have hold := (h m).2.2
      simp only [jobs_for] at hold
      exact hold

lemma enqueue_sites_step_inv (acc : List DownloadJob × List (String × Nat))
    (pd : ProcessedData) (h : CounterInv acc) :
    CounterInv (enqueue_sites_step acc pd) := by
  obtain ⟨jobs, cs0⟩ := acc
  exact enqueue_step_core jobs
    (if (cs0.lookup pd.manufacturer).isNone then upd_counter pd.manufacturer 1 cs0 else cs0)
    pd (counter_init_inv jobs cs0 pd.manufacturer h)

lemma enqueue_fold_inv (ws : List ProcessedData)
    (acc : List DownloadJob × List (String × Nat)) (h : CounterInv acc) :
    CounterInv (ws.foldl enqueue_sites_step acc) := by
  induction ws generalizing acc with
  | nil => exact h
  | cons pd rest ih =>
    simp only [List.foldl_cons]
    exact ih _ (enqueue_sites_step_inv acc pd h)

/-- C5: for every manufacturer, the sequence numbers of that manufacturer's
enqueued download jobs are exactly 1, 2, …, k (strictly increasing and
gapless from 1, fixed at enqueue time), and no job ever carries a sequence
number above 26·99 = 2574 — number 2575 is rejected before any naming. -/
theorem download_jobs_gapless (ws : List ProcessedData) (m : String) :
    ((jobs_for (enqueue_jobs ws) m).map DownloadJob.seq) =
      List.range' 1 ((jobs_for (enqueue_jobs ws) m).length) ∧
    ∀ j ∈ enqueue_jobs ws, 1 ≤ j.seq ∧ j.seq ≤ 2574 := by
  have hbase : CounterInv (([] : List DownloadJob), ([] : List (String × Nat))) := by
    intro m'
    exact ⟨le_refl _, (by norm_num : (1 : Nat) ≤ 2575), rfl⟩
  have hI := enqueue_fold_inv ws ([], []) hbase
  constructor
  · have hm := (hI m).2.2
    have hlen := congrArg List.length hm
    rw [List.length_map, List.length_range'] at hlen
    rw [show enqueue_jobs ws = (ws.foldl enqueue_sites_step ([], [])).1 from rfl]
    rw [hm, hlen]
  · intro j hj
    have hmem : j ∈ jobs_for (enqueue_jobs ws) j.manufacturer := by
      unfold jobs_for
      exact List.mem_filter.2 ⟨hj, by simp⟩
    have hseq : j.seq ∈ (jobs_for (enqueue_jobs ws) j.manufacturer).map DownloadJob.seq :=
      List.mem_map_of_mem DownloadJob.seq hmem
    have hm := (hI j.manufacturer).2.2
    rw [show enqueue_jobs ws = (ws.foldl enqueue_sites_step ([], [])).1 from rfl] at hseq
    rw [hm] at hseq
    rw [List.mem_range'_1] at hseq
    have := (hI j.manufacturer).2.1
    omega

/-- A one-image site used to witness the gapless-sequence theorem. -/
def sample_site : ProcessedData :=
  ⟨"A", 0, "http://a/", [⟨"http://a/x.png", "N/A", .img_tag, "http://a/", ""⟩], []⟩

/-- Witness for C5: the theorem applied to a concrete one-site batch. -/
theorem download_jobs_gapless_witness :
    ((jobs_for (enqueue_jobs [sample_site]) "A").map DownloadJob.seq) =
      List.range' 1 ((jobs_for (enqueue_jobs [sample_site]) "A").length) :=
  (download_jobs_gapless [sample_site] "A").1

/- ========  File-extension inference (download_single_image)  ======== -/

/-- Embedding of `os.path.splitext(p)[1]`: the extension of `p`'s final
slash-separated component — everything from the component's last dot on,
provided some non-dot character of the component precedes that dot (so
dotfiles like `.bashrc` yield no extension).  Note the source applies this
to the whole URL string, not to its path. -/
def py_splitext_ext (s : String) : String :=
  let base := s.data.reverse.takeWhile (fun c => c != '/')
  let afterDot := base.takeWhile (fun c => c != '.')
  if afterDot.length = base.length then ""
  else if (base.drop (afterDot.length + 1)).any (fun c => c != '.') then
    String.mk ('.' :: afterDot.reverse)
  else ""

/-- Embedding of Python `str.lower()` (character-wise; the source only
meets ASCII extensions). -/
def py_lower (s : String) : String := String.mk (s.data.map Char.toLower)

/-- Embedding of the extension logic of `download_single_image`
(`image_downloader.py` lines 29–32):
`ext = os.path.splitext(image_data['url'])[1].lower() or '.jpg'`, then
anything outside the allowed set is replaced by `.jpg`. -/
def get_extension (url : String) : String :=
  let e0 := py_lower (py_splitext_ext url)
  let e1 := if e0 = "" then ".jpg" else e0
  if e1 ∈ [".jpg", ".jpeg", ".png", ".gif"] then e1 else ".jpg"

/-- The URL's path part: everything before any query (`?`) or fragment
(`#`) delimiter. -/
def url_path_part (u : String) : String :=
  String.mk (u.data.takeWhile (fun c => !(c == '?' || c == '#')))

/-- Modelled from the spec: C8 says the extension is "inferred from the
image URL's **path**"; this reference definition applies the same
splitext/lower/default/filter rule to the URL's path only, for comparison
with `get_extension`, which the source applies to the whole URL string. -/
def spec_path_extension (u : String) : String :=
  let e0 := py_lower (py_splitext_ext (url_path_part u))
  let e1 := if e0 = "" then ".jpg" else e0
  if e1 ∈ [".jpg", ".jpeg", ".png", ".gif"] then e1 else ".jpg"

/-- C8 counterexample: for `http://a/img?v=2.png` the URL's path (`/img`)
carries no extension, so the claim mandates `.jpg`; the code splits the
full URL string — query included — and stores `.png`. -/
theorem extension_path_counterexample :
    get_extension "http://a/img?v=2.png" = ".png" ∧
    spec_path_extension "http://a/img?v=2.png" = ".jpg" ∧
    (".png" : String) ≠ ".jpg" := by
  refine ⟨by decide, by decide, by decide⟩

/-- C8 (amended): the stored extension is inferred by splitting the full
URL string (query string included) at its final dot, not the URL's path;
it is always one of `.jpg`, `.jpeg`, `.png`, `.gif`, with `.jpg`
substituted when the split yields nothing or an extension outside that
set — e.g. an extensionless URL gets `.jpg` and an uppercase `.PNG` is
stored as `.png`. -/
theorem extension_always_known :
    (∀ url, get_extension url ∈ ([".jpg", ".jpeg", ".png", ".gif"] : List String)) ∧
    get_extension "http://a/img" = ".jpg" ∧
    get_extension "http://a/b.bmp" = ".jpg" ∧
    get_extension "http://a/b.PNG" = ".png" := by
  refine ⟨?_, by decide, by decide, by decide⟩
  intro url
  simp only [get_extension]
  split
  · decide
  · split
    · next hmem => exact hmem
    · decide

/- =====  Domain crawler (WebsiteProcessor) and orchestrator  ===== -/

/-- Outcome of the robots.txt fetch in `process_domain`: a 200 response
parsed into an allow/deny policy (`rp.can_fetch("*", ·)`), a non-200
response, or a raised fetch exception. -/
inductive RobotsOutcome where
  | ok (policy : String → Bool)
  | non200
  | fetchErr

/-- The HTTP world one run crawls: the robots outcome per robots.txt URL
and the `fetch_page` outcome per page URL (`none` models a non-200
response or exhausted retries, which `fetch_page` turns into `None`). -/
structure World where
  robots : String → RobotsOutcome
  pages : String → Option Page

/-- The mutable fields of one `WebsiteProcessor` instance.
`max_pages_per_domain` is assigned 500 in `__init__` and — exactly as in
the source — never consulted anywhere else; `rp` is the robots parser
(`none` models Python `None`). -/
structure CrawlerState where
  visited : List String
  downloaded : List String
  max_pages_per_domain : Nat := 500
  rp : Option (String → Bool)

/-- The exception a crawl task can raise: `self.rp.can_fetch(...)` with
`rp = None` is an `AttributeError`. -/
inductive Crash where
  | attrError
  deriving DecidableEq

/-- The guard-and-recurse body of the sublink loop at the bottom of
`process_url` (`if sublink not in self.visited_urls and
self.rp.can_fetch("*", sublink): await self.process_url(...)`), with the
recursive visit passed in as `visit`. -/
def sibling_step (visit : String → CrawlerState × ProcessedData →
      Except (Crash × CrawlerState) (CrawlerState × ProcessedData))
    (acc2 : CrawlerState × ProcessedData) (sublink : String) :
    Except (Crash × CrawlerState) (CrawlerState × ProcessedData) :=
  if sublink ∈ acc2.1.visited then .ok acc2
  else
    match acc2.1.rp with
    | none => .error (.attrError, acc2.1)
    | some pol2 =>
      if pol2 sublink then visit sublink acc2 else .ok acc2

/-- Embedding of `WebsiteProcessor.process_url` (`process_website.py`
lines 141–167), recursion bounded by explicit fuel (the source recurses
without bound; every theorem below supplies enough fuel).  The guards keep
the source's short-circuit order: a visited URL returns before `self.rp`
is touched, and a `None` parser raises.  On a fetched page the images and
the flattened text are recorded, then each same-site sublink is visited
depth-first.  The politeness `sleep` has no observable effect here. -/
def process_url (w : World) : Nat → String → CrawlerState × ProcessedData →
    Except (Crash × CrawlerState) (CrawlerState × ProcessedData)
  | 0, _, acc => .ok acc
  | fuel+1, url, acc =>
    if url ∈ acc.1.visited then .ok acc
    else
      match acc.1.rp with
      | none => .error (.attrError, acc.1)
      | some pol =>
        if pol url then
          let st := { acc.1 with visited := acc.1.visited ++ [url] }
          match w.pages url with
          | none => .ok (st, acc.2)
          | some page =>
            let ex := extract_images st.downloaded url page
            let st2 := { st with downloaded := ex.2 }
            let pd2 := { acc.2 with
              images := acc.2.images ++ ex.1,
              page_contexts := acc.2.page_contexts ++ [(url, page.textFlat)] }
            (get_sublinks url page.anchors).foldlM
              (sibling_step (process_url w fuel)) (st2, pd2)
        else .ok acc

/-- Embedding of the URL normalisation at the top of `process_domain`. -/
def normalize_url (u : String) : String :=
  if py_startswith u "http://" || py_startswith u "https://" then u
  else "http://" ++ u

/-- The body of `process_domain` after the robots setup: build the result
dict, fetch the home page (`None` → the domain yields `None`), read the
menu items off it, then `process_url` the home page followed by each menu
item resolved against the site URL. -/
def crawl_after_robots (w : World) (fuel : Nat) (manufacturer : String)
    (website_url : String) (manufacturer_index : Nat) (st : CrawlerState) :
    Except (Crash × CrawlerState) (CrawlerState × Option ProcessedData) :=
  match w.pages website_url with
  | none => .ok (st, none)
  | some seedPage =>
    (process_url w fuel website_url
        (st, ⟨manufacturer, manufacturer_index, website_url, [], []⟩)) >>= fun acc =>
      (seedPage.menuAnchors.foldlM
        (fun acc2 item => process_url w fuel (urljoin website_url item) acc2) acc) >>=
          fun acc2 => pure (acc2.1, some acc2.2)

/-- Embedding of `WebsiteProcessor.process_domain` (`process_website.py`
lines 169–220): normalise the URL, fetch robots.txt — a raised fetch error
sets `rp = None` and returns `None`; a non-200 response sets `rp = None`
and **continues**; a 200 response installs the parsed policy — then crawl
the home page and menu items. -/
def process_domain (w : World) (fuel : Nat) (manufacturer : String)
    (website_url : String) (manufacturer_index : Nat) (st : CrawlerState) :
    Except (Crash × CrawlerState) (CrawlerState × Option ProcessedData) :=
  match w.robots (urljoin (normalize_url website_url) "/robots.txt") with
  | .fetchErr => .ok ({ st with rp := none }, none)
  | .non200 =>
    crawl_after_robots w fuel manufacturer (normalize_url website_url)
      manufacturer_index { st with rp := none }
  | .ok pol =>
    crawl_after_robots w fuel manufacturer (normalize_url website_url)
      manufacturer_index { st with rp := some pol }

/-- One element of the list `asyncio.gather(..., return_exceptions=True)`
hands back for a spawned task: the per-domain result dict or the exception
object the task raised (`None` results are dropped by the final filter,
a raised exception is *not* `None` and survives it). -/
inductive GatherItem where
  | res (pd : ProcessedData)
  | exc (e : Crash)

/-- Embedding of `process_websites` (`process_website.py` lines 223–238)
under a sequential schedule of the gathered tasks: a **single**
`WebsiteProcessor` — hence a single `visited_urls`, `downloaded_images`
and `rp` — is shared by every domain task; `enumerate` indexes every
manufacturer entry and entries without a website spawn no task; the final
`[r for r in results if r is not None]` keeps result dicts and exception
objects and drops only `None`s. -/
def process_websites (w : World) (fuel : Nat)
    (manufacturer_data : List (String × Option String)) : List GatherItem :=
  (manufacturer_data.enum.foldl
    (fun (acc : List GatherItem × CrawlerState) p =>
      match p.2.2 with
      | none => acc
      | some url =>
        match process_domain w fuel p.2.1 url p.1 acc.2 with
        | .ok (st2, some pd) => (acc.1 ++ [.res pd], st2)
        | .ok (st2, none) => (acc.1, st2)
        | .error (e, st2) => (acc.1 ++ [.exc e], st2))
    ([], { visited := [], downloaded := [], rp := none })).1

/- ==========  C3: robots non-200 crashes the domain task  ========== -/

/-- A world whose robots.txt answers non-200 (e.g. 404) while the home
page itself fetches fine. -/
def w3 : World where
  robots := fun _ => .non200
  pages := fun u => if u = "http://m/" then some {} else none

/-- C3 (code bug): on a non-200 robots.txt response the source sets
`self.rp = None` and continues instead of returning; the first
`self.rp.can_fetch` then raises `AttributeError`, and because
`asyncio.gather(..., return_exceptions=True)` returns the exception object
— which is not `None` — the orchestrator keeps it in the aggregate instead
of silently dropping the domain. -/
theorem robots_non200_crashes_crawl :
    process_domain w3 3 "M" "http://m/" 0 ⟨[], [], 500, none⟩
      = .error (.attrError, ⟨[], [], 500, none⟩) ∧
    process_websites w3 3 [("M", some "http://m/")] = [.exc .attrError] := by
  exact ⟨rfl, rfl⟩

/- =====  C6: the prefix test runs against the current page's URL  ===== -/

/-- A world where the seed links to a subdirectory page which in turn
links back to a seed-prefixed sibling. -/
def w6 : World where
  robots := fun _ => .ok (fun _ => true)
  pages := fun u =>
    if u = "http://s/" then some { anchors := ["http://s/a/"] }
    else if u = "http://s/a/" then some { anchors := ["http://s/b"] }
    else if u = "http://s/b" then some {}
    else none

/-- C6 counterexample: crawling seed `http://s/` visits `http://s/a/`; on
that visited page the anchor `http://s/b` resolves to an absolute URL that
*does* start with the seed, yet `get_sublinks` — called with the current
page's URL — returns nothing, so the crawl never reaches `http://s/b`. -/
theorem sublink_seed_prefix_counterexample :
    (process_domain w6 5 "M" "http://s/" 0 ⟨[], [], 500, none⟩).toOption.map
        (fun r => r.1.visited) = some ["http://s/", "http://s/a/"] ∧
    urljoin "http://s/a/" "http://s/b" = "http://s/b" ∧
    py_startswith "http://s/b" "http://s/" = true ∧
    get_sublinks "http://s/a/" ["http://s/b"] = [] := by
  exact ⟨rfl, rfl, rfl, rfl⟩

/- =====  C9: one processor's dedup sets are shared across domains  ===== -/

/-- Two manufacturer sites that embed the same CDN-hosted image. -/
def w9 : World where
  robots := fun _ => .ok (fun _ => true)
  pages := fun u =>
    if u = "http://a/" then some { imgTags := [{ src := some "http://c/x.png" }] }
    else if u = "http://b/" then some { imgTags := [{ src := some "http://c/x.png" }] }
    else none

/-- The image-URL lists of the result dicts a run produced for
manufacturer `m`. -/
def images_of (rs : List GatherItem) (m : String) : List (List String) :=
  rs.filterMap fun r =>
    match r with
    | .res pd => if pd.manufacturer = m then some (pd.images.map ImageRec.url) else none
    | .exc _ => none

/-- C9 counterexample: manufacturer B's crawl emits no image when A's
crawl ran first in the same run, yet emits the image when B runs alone —
the crawls interfere through the shared `downloaded_images` set. -/
theorem shared_dedup_counterexample :
    images_of (process_websites w9 3
      [("A", some "http://a/"), ("B", some "http://b/")]) "B" = [[]] ∧
    images_of (process_websites w9 3 [("B", some "http://b/")]) "B"
      = [["http://c/x.png"]] := by
  exact ⟨rfl, rfl⟩

/-- C9 (amended): all domain crawls of a run share one
`WebsiteProcessor`'s visited-URL and image-dedup sets, so an image URL
harvested by an earlier crawl is suppressed in every later crawl of the
same run: in the two-domain run, A emits the shared CDN image and B,
crawled after A, emits nothing. -/
theorem shared_dedup_interference :
    images_of (process_websites w9 3
      [("A", some "http://a/"), ("B", some "http://b/")]) "A" = [["http://c/x.png"]] ∧
    images_of (process_websites w9 3
      [("A", some "http://a/"), ("B", some "http://b/")]) "B" = [[]] := by
  exact ⟨rfl, rfl⟩

/- =====  C2: no page ceiling is enforced (star-shaped 502-page site)  ===== -/

/-- A page with no links, menu entries or images. -/
def empty_page : Page := {}

lemma except_bind_ok {ε α β : Type} (x : α) (f : α → Except ε β) :
    ((Except.ok x : Except ε α) >>= f) = f x := rfl

lemma except_pure_bind {ε α β : Type} (x : α) (f : α → Except ε β) :
    ((pure x : Except ε α) >>= f) = f x := rfl

lemma process_url_leaf (w : World) (fuel : Nat) (url : String) (st : CrawlerState)
    (pd : ProcessedData) (pol : String → Bool)
    (hrp : st.rp = some pol) (hpol : pol url = true)
    (hfresh : url ∉ st.visited) (hpage : w.pages url = some empty_page) :
    process_url w (fuel+1) url (st, pd) =
      .ok ({ st with visited := st.visited ++ [url] },
           { pd with page_contexts := pd.page_contexts ++ [(url, "")] }) := by
  simp [process_url, hrp, hpol, hpage, hfresh, extract_images, empty_page, get_sublinks]
  rfl

lemma sibling_fold_leaves (w : World) (fuel : Nat) (children : List String)
    (st : CrawlerState) (pd : ProcessedData) (pol : String → Bool)
    (hrp : st.rp = some pol)
    (hpol : ∀ c ∈ children, pol c = true)
    (hnd : children.Nodup)
    (hfresh : ∀ c ∈ children, c ∉ st.visited)
    (hpages : ∀ c ∈ children, w.pages c = some empty_page) :
    ∃ pcs, children.foldlM (sibling_step (process_url w (fuel+1))) (st, pd) =
      .ok ({ st with visited := st.visited ++ children },
           { pd with page_contexts := pd.page_contexts ++ pcs }) := by
  induction children generalizing st pd with
  | nil =>
    refine ⟨[], ?_⟩
    simp only [List.foldlM_nil, List.append_nil]
    rfl
  | cons c rest ih =>
    have hcfresh : c ∉ st.visited := hfresh c (List.mem_cons_self c rest)
    have hcpol : pol c = true := hpol c (List.mem_cons_self c rest)
    have hcpage : w.pages c = some empty_page := hpages c (List.mem_cons_self c rest)
    rw [List.foldlM_cons]
    have hstep : sibling_step (process_url w (fuel+1)) (st, pd) c
        = process_url w (fuel+1) c (st, pd) := by
      simp [sibling_step, hcfresh, hrp, hcpol]
    rw [hstep, process_url_leaf w fuel c st pd pol hrp hcpol hcfresh hcpage]
    simp only [except_bind_ok]
    have hfresh2 : ∀ x ∈ rest,
        x ∉ ({ st with visited := st.visited ++ [c] } : CrawlerState).visited := by
      intro x hx
      simp only [List.mem_append, List.mem_singleton, not_or]
      exact ⟨hfresh x (List.mem_cons_of_mem c hx),
        fun hxc => (List.nodup_cons.1 hnd).1 (hxc ▸ hx)⟩
    obtain ⟨pcs2, hrec⟩ := ih ({ st with visited := st.visited ++ [c] })
      ({ pd with page_contexts := pd.page_contexts ++ [(c, "")] }) hrp
      (fun x hx => hpol x (List.mem_cons_of_mem c hx)) (List.nodup_cons.1 hnd).2
      hfresh2 (fun x hx => hpages x (List.mem_cons_of_mem c hx))
    refine ⟨(c, "") :: pcs2, ?_⟩
    rw [hrec]
    simp [List.append_assoc]

lemma get_sublinks_aux_eq (url : String) (anchors : List String) (acc : List String)
    (hres : ∀ c ∈ anchors, urljoin url c = c ∧ py_startswith c url = true)
    (hnd : anchors.Nodup)
    (hdis : ∀ c ∈ anchors, c ∉ acc) :
    anchors.foldl
      (fun acc href =>
        if py_startswith (urljoin url href) url = true then
          if urljoin url href ∈ acc then acc else acc ++ [urljoin url href]
        else acc) acc = acc ++ anchors := by
  induction anchors generalizing acc with
  | nil => simp
  | cons a l ih =>
    have ha := hres a (List.mem_cons_self a l)
    simp only [List.foldl_cons, ha.1, ha.2, if_true]
    rw [if_neg (hdis a (List.mem_cons_self a l))]
    rw [ih (acc ++ [a]) (fun c hc => hres c (List.mem_cons_of_mem a hc))
      (List.nodup_cons.1 hnd).2 ?_]
    · simp
    · intro c hc
      simp only [List.mem_append, List.mem_singleton, not_or]
      exact ⟨hdis c (List.mem_cons_of_mem a hc),
        fun hca => (List.nodup_cons.1 hnd).1 (hca ▸ hc)⟩

lemma get_sublinks_eq_self (url : String) (anchors : List String)
    (hres : ∀ c ∈ anchors, urljoin url c = c ∧ py_startswith c url = true)
    (hnd : anchors.Nodup) :
    get_sublinks url anchors = anchors := by
  have h := get_sublinks_aux_eq url anchors [] hres hnd (by simp)
  simpa [get_sublinks] using h

lemma process_url_star (w : World) (fuel : Nat) (seed : String) (st : CrawlerState)
    (pd : ProcessedData) (pol : String → Bool) (children : List String)
    (hrp : st.rp = some pol) (hpolseed : pol seed = true)
    (hpol : ∀ c ∈ children, pol c = true)
    (hnd : children.Nodup)
    (hfresh_seed : seed ∉ st.visited)
    (hfresh : ∀ c ∈ children, c ∉ st.visited)
    (hne : ∀ c ∈ children, c ≠ seed)
    (hseedpage : w.pages seed = some { anchors := children })
    (hpages : ∀ c ∈ children, w.pages c = some empty_page)
    (hsub : get_sublinks seed children = children) :
    ∃ pcs, process_url w (fuel+2) seed (st, pd) =
      .ok ({ st with visited := st.visited ++ (seed :: children) },
           { pd with page_contexts := pd.page_contexts ++ pcs }) := by
  have hfresh2 : ∀ c ∈ children,
      c ∉ ({ st with visited := st.visited ++ [seed] } : CrawlerState).visited := by
    intro c hc
    simp only [List.mem_append, List.mem_singleton, not_or]
    exact ⟨hfresh c hc, hne c hc⟩
  obtain ⟨pcs2, hfold⟩ := sibling_fold_leaves w fuel children
    ({ st with visited := st.visited ++ [seed] })
    ({ pd with page_contexts := pd.page_contexts ++ [(seed, "")] })
    pol hrp hpol hnd hfresh2 hpages
  refine ⟨(seed, "") :: pcs2, ?_⟩
  show process_url w (fuel+1+1) seed (st, pd) = _
  simp only [process_url, hfresh_seed, hrp, hpolseed, hseedpage, hsub, if_true,
    if_false, ite_false, ite_true, extract_images, List.foldl_nil, List.append_nil,
    not_false_eq_true, List.append_assoc, List.singleton_append] at hfold ⊢
  exact hfold

/-- A run of `k` letters `a`. -/
def a_string (k : Nat) : String := String.mk (List.replicate k 'a')

/-- 501 pairwise-distinct child URLs directly under the seed
`http://s/`. -/
def star_children : List String :=
  (List.range 501).map (fun i => "http://s/" ++ a_string (i + 1))

/-- The seed page linking to all 501 children (no menu, no images). -/
def star_seed_page : Page := { anchors := star_children }

/-- A 502-page site: the seed plus its 501 children, robots allowing
everything. -/
def w2star : World where
  robots := fun _ => .ok (fun _ => true)
  pages := fun u =>
    if u = "http://s/" then some star_seed_page
    else if u ∈ star_children then some empty_page
    else none

lemma a_string_length (k : Nat) : (a_string k).length = k := by
  simp [a_string, String.length]

lemma urljoin_http_child (x : String) :
    urljoin "http://s/" ("http://s/" ++ x) = "http://s/" ++ x := rfl

lemma startswith_http_child (x : String) :
    py_startswith ("http://s/" ++ x) "http://s/" = true := by
  unfold py_startswith
  rw [String.data_append]
  exact List.isPrefixOf_iff_prefix.mpr (List.prefix_append _ _)

lemma child_ne_seed (k : Nat) : "http://s/" ++ a_string (k + 1) ≠ "http://s/" := by
  intro h
  have hlen := congrArg String.length h
  rw [String.length_append, a_string_length] at hlen
  omega

lemma star_children_nodup : star_children.Nodup := by
  refine List.Nodup.map ?_ (List.nodup_range 501)
  intro a b hab
  have hlen := congrArg String.length hab
  rw [String.length_append, String.length_append, a_string_length, a_string_length] at hlen
  omega

lemma star_children_spec : ∀ c ∈ star_children,
    urljoin "http://s/" c = c ∧ py_startswith c "http://s/" = true ∧
    c ≠ "http://s/" ∧ w2star.pages c = some empty_page := by
  intro c hc
  obtain ⟨i, hi, rfl⟩ := List.mem_map.1 hc
  refine ⟨urljoin_http_child _, startswith_http_child _, child_ne_seed i, ?_⟩
  show w2star.pages ("http://s/" ++ a_string (i + 1)) = some empty_page
  simp only [w2star]
  rw [if_neg (child_ne_seed i), if_pos hc]

lemma star_children_length : star_children.length = 501 := by
  simp [star_children]

/-- C2 (code bug): `max_pages_per_domain = 500` is assigned in `__init__`
but never consulted, so nothing stops a crawl at 500 pages: on a site
whose seed links to 501 distinct same-prefix pages, `process_domain`
succeeds with 502 visited URLs. -/
theorem crawl_exceeds_page_ceiling :
    ∃ st pd, process_domain w2star 3 "M" "http://s/" 0 ⟨[], [], 500, none⟩
        = .ok (st, some pd) ∧ st.visited.length = 502 ∧
        500 < st.visited.length := by
  have hspec := star_children_spec
  have hsub : get_sublinks "http://s/" star_children = star_children :=
    get_sublinks_eq_self _ _ (fun c hc => ⟨(hspec c hc).1, (hspec c hc).2.1⟩)
      star_children_nodup
  obtain ⟨pcs, hrun⟩ := process_url_star w2star 1 "http://s/"
    ⟨[], [], 500, some (fun _ => true)⟩ ⟨"M", 0, "http://s/", [], []⟩
    (fun _ => true) star_children rfl rfl (fun c hc => rfl) star_children_nodup
    (by simp) (fun c hc => by simp) (fun c hc => (hspec c hc).2.2.1) rfl
    (fun c hc => (hspec c hc).2.2.2) hsub
  have hdom : process_domain w2star 3 "M" "http://s/" 0 ⟨[], [], 500, none⟩
      = crawl_after_robots w2star 3 "M" "http://s/" 0
          ⟨[], [], 500, some (fun _ => true)⟩ := rfl
  have hpages_seed : w2star.pages "http://s/" = some star_seed_page := rfl
  have hmenu : star_seed_page.menuAnchors = [] := rfl
  rw [show (3 : Nat) = 1 + 2 from rfl] at hdom
  have hcraw : crawl_after_robots w2star (1+2) "M" "http://s/" 0
      ⟨[], [], 500, some (fun _ => true)⟩
      = .ok (⟨[] ++ ("http://s/" :: star_children), [], 500, some (fun _ => true)⟩,
          some ⟨"M", 0, "http://s/", [], [] ++ pcs⟩) := by
    simp only [crawl_after_robots, hpages_seed]
    rw [hrun]
    simp only [except_bind_ok, hmenu, List.foldlM_nil, except_pure_bind]
    rfl
  refine ⟨⟨[] ++ ("http://s/" :: star_children), [], 500, some (fun _ => true)⟩,
    ⟨"M", 0, "http://s/", [], [] ++ pcs⟩, ?_, ?_, ?_⟩
  · rw [hdom, hcraw]
  · simp [star_children_length]
  · simp [star_children_length]
